import Mathlib

/-!
Verification of the gpro-rs chord-sheet parser and layout engine
(src/parser.rs, src/ui.rs) against its natural-language specification.

Strings are modelled as lists of characters; a character index equals the
rendered width of the prefix before it, matching the source's use of
char counts and unicode widths on the ASCII inputs at issue.  Rust code
that can panic (an unwrap of a missing capture group, a failed integer
parse, a failed interval lookup) is modelled in the Except monad, with
a panic mapped to an error value.
-/

/-- Style tag of a styled run of text.  The source builds spans with
either the default style or one of theme.chord, theme.comment,
theme.title; the theme itself only selects concrete colours, so the four
slots are modelled symbolically. -/
inductive Style where
  | plain
  | chord
  | comment
  | title
deriving DecidableEq

/-- A styled piece of text (tui::text::Span): content plus one style. -/
structure Span where
  content : List Char
  style : Style
deriving DecidableEq

/-- Width of a span: its character count (tui's unicode width equals the
char count on the ASCII text involved here). -/
def Span.width (s : Span) : Nat := s.content.length

/-- Width of a list of spans (tui::text::Spans::width): the sum of the
widths of its spans. -/
def spansWidth (l : List Span) : Nat := (l.map Span.width).sum

/-- One line of a parsed song (parser.rs SongLine): an optional chord
run over an optional lyric run. -/
structure SongLine where
  chords : Option (List Span)
  text : Option (List Span)
deriving DecidableEq

/-- SongLine::from. -/
def SongLine.from (chords text : List Span) : SongLine := ⟨some chords, some text⟩

/-- SongLine::from_text. -/
def SongLine.from_text (text : List Span) : SongLine := ⟨none, some text⟩

/-- SongLine::from_chords. -/
def SongLine.from_chords (chords : List Span) : SongLine := ⟨some chords, none⟩

/-- SongLine::width: the maximum of the widths of the two runs
(parser.rs lines 44-51). -/
def SongLine.width (l : SongLine) : Nat :=
  match l.chords, l.text with
  | some c, some t => max (spansWidth c) (spansWidth t)
  | some c, none => spansWidth c
  | none, some t => spansWidth t
  | none, none => 0

/-- SongLine::height: 2 when both runs are present, 1 when exactly one
is, 0 when neither is (parser.rs lines 53-60). -/
def SongLine.height (l : SongLine) : Nat :=
  match l.chords, l.text with
  | some _, some _ => 2
  | some _, none => 1
  | none, some _ => 1
  | none, none => 0

/-- A parsed song (parser.rs Song): title, subtitle, normalized source
text, and the ordered sequence of song lines. -/
structure Song where
  title : List Char
  subtitle : List Char
  songstring : List Char
  text : List SongLine
deriving DecidableEq

/-- A pitch class: one of the 12 semitone values, C = 0 .. B = 11
(rust_music_theory::note::PitchClass, equality by semitone value). -/
def PitchClass : Type := Fin 12
deriving DecidableEq

/-- Semitone value of a natural root letter, none for any other
character. -/
def pitchLetter (c : Char) : Option Nat :=
  if c = 'C' then some 0
  else if c = 'D' then some 2
  else if c = 'E' then some 4
  else if c = 'F' then some 5
  else if c = 'G' then some 7
  else if c = 'A' then some 9
  else if c = 'B' then some 11
  else none

/-- Modelled from the spec: rust_music_theory's PitchClass::from_str
(section 4.2), an external crate function whose source is not in this
repository: it accepts a letter A-G optionally followed by a sharp or
flat accidental and fails on any other input. -/
def PitchClass.from_str (s : List Char) : Option PitchClass :=
  match s with
  | [c] => (pitchLetter c).map (fun n => ⟨n % 12, Nat.mod_lt _ (by decide)⟩)
  | [c, m] =>
    (pitchLetter c).bind (fun n =>
      if m = '#' then some ⟨(n + 1) % 12, Nat.mod_lt _ (by decide)⟩
      else if m = 'b' then some ⟨(n + 11) % 12, Nat.mod_lt _ (by decide)⟩
      else none)
  | _ => none

/-- PitchClass::into_u8: the semitone value. -/
def PitchClass.into_u8 (p : PitchClass) : Nat := p.val

/-- Modelled from the spec: the canonical display name of a pitch class
(rust_music_theory's Display instance, external crate), sharp spellings. -/
def PitchClass.to_string (p : PitchClass) : List Char :=
  match p.val with
  | 0 => ['C']
  | 1 => ['C', '#']
  | 2 => ['D']
  | 3 => ['D', '#']
  | 4 => ['E']
  | 5 => ['F']
  | 6 => ['F', '#']
  | 7 => ['G']
  | 8 => ['G', '#']
  | 9 => ['A']
  | 10 => ['A', '#']
  | _ => ['B']

/-- Modelled from the spec: rust_music_theory's Interval::from_semitone
(external crate), defined for semitone distances up to an octave and
failing beyond it. -/
def intervalFromSemitone (s : Nat) : Option Nat :=
  if s ≤ 12 then some s else none

/-- PitchClass::from_interval: move a pitch class up by an interval's
semitone count on the 12-tone circle. -/
def PitchClass.from_interval (p : PitchClass) (s : Nat) : PitchClass :=
  ⟨(p.val + s) % 12, Nat.mod_lt _ (by decide)⟩

/-- Rust's truncating cast of an i32 value to u8: the low eight bits. -/
def i32AsU8 (v : Int) : Nat := (v % 256).toNat

/-- The chord-root transposition step of Song::parse_chords (parser.rs
lines 295-300): the accumulated transposition is folded by
((transposition + 12) % 12) as u8 (Rust % is the truncating remainder,
Int.tmod) and looked up as an interval; a failed lookup is the unwrap
panic of the source. -/
def transpose (p : PitchClass) (t : Int) : Except String PitchClass :=
  match intervalFromSemitone (i32AsU8 ((t + 12).tmod 12)) with
  | some s => .ok (p.from_interval s)
  | none => .error "unwrap failed: Interval::from_semitone"

/-- Normalization of line endings (parser.rs RE_NEWLINES replace_all):
every \n, \n\r, \r or \r\n becomes a single \n. -/
def normNl : List Char → List Char
  | [] => []
  | '\n' :: '\r' :: r => '\n' :: normNl r
  | '\r' :: '\n' :: r => '\n' :: normNl r
  | '\n' :: r => '\n' :: normNl r
  | '\r' :: r => '\n' :: normNl r
  | c :: r => c :: normNl r

/-- Split a character list at every newline, keeping empty segments. -/
def splitNl : List Char → List (List Char)
  | [] => [[]]
  | '\n' :: rest => [] :: splitNl rest
  | c :: rest =>
    match splitNl rest with
    | seg :: segs => (c :: seg) :: segs
    | [] => [[c]]

/-- Rust str::lines on newline-normalized text: split at \n, with no
trailing empty line when the text ends in \n, and no lines at all for
empty text. -/
def rustLines (cs : List Char) : List (List Char) :=
  match cs with
  | [] => []
  | _ => if cs.getLast? = some '\n' then (splitNl cs).dropLast else splitNl cs

/-- Rust str::trim: strip whitespace from both ends. -/
def strTrim (cs : List Char) : List Char :=
  ((cs.dropWhile Char.isWhitespace).reverse.dropWhile Char.isWhitespace).reverse

/-- Accumulate decimal digits; none at the first non-digit. -/
def digitsToNatGo (acc : Nat) : List Char → Option Nat
  | [] => some acc
  | c :: r => if c.isDigit then digitsToNatGo (acc * 10 + (c.toNat - 48)) r else none

/-- Read a non-empty all-digit string as a Nat. -/
def digitsToNat (cs : List Char) : Option Nat :=
  match cs with
  | [] => none
  | _ => digitsToNatGo 0 cs

/-- Rust str::parse::<i32>: optional sign, at least one digit, nothing
else, and the value must fit in an i32. -/
def parseI32 (cs : List Char) : Option Int :=
  match cs with
  | '+' :: rest => (digitsToNat rest).bind (fun n => if n ≤ 2147483647 then some (n : Int) else none)
  | '-' :: rest => (digitsToNat rest).bind (fun n => if n ≤ 2147483648 then some (-(n : Int)) else none)
  | _ => (digitsToNat cs).bind (fun n => if n ≤ 2147483647 then some (n : Int) else none)

/-- Characters allowed inside a directive-tag body (RE_TAGS: anything
but a brace or newline). -/
def notBrace (c : Char) : Bool := !(c = '\x7b' || c = '\x7d' || c = '\n')

/-- Try to read a tag body at a position just after an opening brace:
the body runs to the next brace, which must be a closing one, and must
be non-empty (RE_TAGS requires at least one body character). -/
def takeTagBody (cs : List Char) : Option (List Char × List Char) :=
  match cs.dropWhile notBrace with
  | '\x7d' :: rest =>
    match cs.takeWhile notBrace with
    | [] => none
    | body => some (body, rest)
  | _ => none

/-- Locate the lazy name/argument split of a tag body: the first colon
preceded by at least one character and followed by at least one
character splits the body (RE_TAGS group 1 is lazy, group 2 greedy);
with no such colon the whole body is the name. -/
def findArgSplitGo (acc : List Char) : List Char → Option (List Char × List Char)
  | [] => none
  | ':' :: rest =>
    match acc, rest with
    | [], _ => findArgSplitGo [':'] rest
    | _, [] => findArgSplitGo (':' :: acc) rest
    | _, _ => some (acc.reverse, rest)
  | c :: rest => findArgSplitGo (c :: acc) rest

/-- Parse a tag body into its directive name and optional argument. -/
def splitTagBody (body : List Char) : List Char × Option (List Char) :=
  match findArgSplitGo [] body with
  | some (n, a) => (n, some a)
  | none => (body, none)

/-- One token of the directive-tag tokenization of a line: a literal
gap or a matched tag carrying its name and optional argument. -/
inductive TagTok where
  | lit : List Char → TagTok
  | tag : List Char → Option (List Char) → TagTok
deriving DecidableEq

/-- Prepend a character to the token list, merging it into a leading
literal so that literal gaps stay contiguous, as regex_split_keep
produces them. -/
def tagLitCons (c : Char) : List TagTok → List TagTok
  | .lit s :: ts => .lit (c :: s) :: ts
  | ts => .lit [c] :: ts

/-- Fuelled scanner for RE_TAGS matches: at an opening brace with a
well-formed body a tag token is produced, otherwise the character is
literal text; fuel bounds the recursion and never runs out when set to
the input length. -/
def tagTokenizeGo : Nat → List Char → List TagTok
  | 0, _ => []
  | _ + 1, [] => []
  | fuel + 1, c :: rest =>
    if c = '\x7b' then
      match takeTagBody rest with
      | some (body, restAfter) =>
        match splitTagBody body with
        | (n, a) => .tag n a :: tagTokenizeGo fuel restAfter
      | none => tagLitCons c (tagTokenizeGo fuel rest)
    else tagLitCons c (tagTokenizeGo fuel rest)

/-- Tokenization of one line by RE_TAGS, as Song::regex_split_keep
followed by RE_TAGS.captures on each piece yields it: alternating
literal gaps and matched directive tags. -/
def tagTokenize (cs : List Char) : List TagTok := tagTokenizeGo cs.length cs

/-- One token of the chord-bracket tokenization of a line: a literal
gap or a matched bracket pair carrying its (possibly empty) body. -/
inductive ChordTok where
  | lit : List Char → ChordTok
  | chord : List Char → ChordTok
deriving DecidableEq

/-- Characters allowed inside a chord bracket (RE_CHORDS: anything but
a square bracket or newline). -/
def notBracket (c : Char) : Bool := !(c = '[' || c = ']' || c = '\n')

/-- Try to read a chord body just after an opening bracket; the body
may be empty (RE_CHORDS uses a star). -/
def takeChordBody (cs : List Char) : Option (List Char × List Char) :=
  match cs.dropWhile notBracket with
  | ']' :: rest => some (cs.takeWhile notBracket, rest)
  | _ => none

/-- Prepend a character to the chord-token list, merging leading
literals. -/
def chordLitCons (c : Char) : List ChordTok → List ChordTok
  | .lit s :: ts => .lit (c :: s) :: ts
  | ts => .lit [c] :: ts

/-- Fuelled scanner for RE_CHORDS matches. -/
def chordTokenizeGo : Nat → List Char → List ChordTok
  | 0, _ => []
  | _ + 1, [] => []
  | fuel + 1, c :: rest =>
    if c = '[' then
      match takeChordBody rest with
      | some (body, restAfter) => .chord body :: chordTokenizeGo fuel restAfter
      | none => chordLitCons c (chordTokenizeGo fuel rest)
    else chordLitCons c (chordTokenizeGo fuel rest)

/-- Tokenization of one literal section by RE_CHORDS, as
Song::regex_split_keep followed by RE_CHORDS.captures yields it. -/
def chordTokenize (cs : List Char) : List ChordTok := chordTokenizeGo cs.length cs

/-- Is this character a chord root letter (RE_ROOT_NOTE first class)? -/
def isRootLetter (c : Char) : Bool :=
  c = 'A' || c = 'B' || c = 'C' || c = 'D' || c = 'E' || c = 'F' || c = 'G'

/-- Look up a matched root token and transpose it, as the replacement
closure of Song::parse_chords does; both unwraps of that closure are
error values here. -/
def transposeRoot (s : List Char) (t : Int) : Except String PitchClass :=
  match PitchClass.from_str s with
  | some p => transpose p t
  | none => .error "unwrap failed: PitchClass::from_str"

/-- RE_ROOT_NOTE.replace_all over a chord tag (parser.rs lines
295-301): each root letter with an optional accidental is replaced by
the display name of its transposed pitch class; all other characters
are kept. -/
def rootReplaceAll (t : Int) : List Char → Except String (List Char)
  | [] => .ok []
  | c :: rest =>
    if isRootLetter c then
      match rest with
      | a :: r =>
        if a = '#' || a = 'b' then do
          let q ← transposeRoot [c, a] t
          let tl ← rootReplaceAll t r
          .ok (q.to_string ++ tl)
        else do
          let q ← transposeRoot [c] t
          let tl ← rootReplaceAll t (a :: r)
          .ok (q.to_string ++ tl)
      | [] => do
        let q ← transposeRoot [c] t
        .ok q.to_string
    else do
      let tl ← rootReplaceAll t rest
      .ok (c :: tl)

/-- The padding character chosen when chords are ahead of lyrics
(parser.rs lines 280-283): a space after whitespace or light
punctuation, a hyphen inside a word. -/
def delimOf (ls : List Char) : Char :=
  match ls.getLast? with
  | none => ' '
  | some c => if c = ' ' || c = ',' || c = '.' || c = ':' || c = ';' then ' ' else '-'

/-- The token loop of Song::parse_chords (parser.rs lines 272-307):
cw and lw are the widths of the spans already accumulated for this
line, cs and ls the chord and lyric strings being built. -/
def parseChordsGo (t : Int) (cw lw : Int) : List ChordTok → List Char → List Char →
    Except String (List Char × List Char)
  | [], cs, ls => .ok (cs, ls)
  | .lit s :: rest, cs, ls => parseChordsGo t cw lw rest cs (ls ++ s)
  | .chord body :: rest, cs, ls =>
    let difference : Int := (lw + ls.length) - (cw + cs.length)
    let ls2 := if difference < 0 then ls ++ List.replicate (-difference).toNat (delimOf ls) else ls
    let cs2 := if 0 < difference then cs ++ List.replicate difference.toNat ' ' else cs
    match rootReplaceAll t body with
    | .ok parsed => parseChordsGo t cw lw rest (cs2 ++ parsed ++ [' ']) ls2
    | .error e => .error e

/-- Song::parse_chords (parser.rs lines 260-314): align one literal
section's chords over its lyrics and append the finished non-empty
strings as spans to the line's accumulators. -/
def parse_chords (chordLine : List Char) (chords spans : List Span) (t : Int) :
    Except String (List Span × List Span) :=
  match parseChordsGo t (spansWidth chords) (spansWidth spans) (chordTokenize chordLine) [] [] with
  | .error e => .error e
  | .ok (cs, ls) =>
    let chords2 := match cs with
      | [] => chords
      | _ => chords ++ [⟨cs, .chord⟩]
    let spans2 := match ls with
      | [] => spans
      | _ => spans ++ [⟨ls, .plain⟩]
    .ok (chords2, spans2)

/-- The mutable state of Song::new while it walks the lines: the song
under construction, the chorus and comment-block flags, and the
accumulated transposition. -/
structure BuildSt where
  song : Song
  chorus : Bool
  comment : Bool
  transposition : Int
deriving DecidableEq

/-- The section loop of Song::new (parser.rs lines 175-234): process
one line's tag and literal tokens, threading the builder state and the
line's chord and text span accumulators.  A result of none in the
second component is the source's continue to the next line, which
abandons the accumulators and skips the push; some returns them for
the push.  Panics (unwraps of missing capture groups or failed parses)
are error values. -/
def processSections (tt : Option PitchClass) :
    BuildSt → List Span → List Span → List TagTok →
    Except String (BuildSt × Option (List Span × List Span))
  | st, chords, text, [] => .ok (st, some (chords, text))
  | st, chords, text, .lit s :: rest =>
    if st.comment then
      processSections tt st chords (text ++ [⟨s, .comment⟩]) rest
    else
      match parse_chords s chords text st.transposition with
      | .ok (c2, t2) => processSections tt st c2 t2 rest
      | .error e => .error e
  | st, chords, text, .tag name arg :: rest =>
    if name = "t".toList ∨ name = "title".toList then
      match arg with
      | some a => .ok ({ st with song.title := strTrim a }, none)
      | none => .error "unwrap failed: capture group 2"
    else if name = "st".toList ∨ name = "subtitle".toList then
      match arg with
      | some a =>
        .ok ({ st with
                song.subtitle := strTrim a,
                song.text := st.song.text ++ [SongLine.from_text [⟨strTrim a, .title⟩]] }, none)
      | none => .error "unwrap failed: capture group 2"
    else if name = "key".toList then
      match tt with
      | some key =>
        match arg with
        | some a =>
          match PitchClass.from_str (strTrim a) with
          | some songKey =>
            .ok ({ st with
                    transposition :=
                      st.transposition + ((key.into_u8 : Int) - (songKey.into_u8 : Int)) }, none)
          | none => .ok (st, none)
        | none => .error "unwrap failed: capture group 2"
      | none => .ok (st, none)
    else if name = "Capo-Bass_Guitar".toList then
      match arg with
      | some a =>
        match parseI32 (strTrim a) with
        | some n =>
          processSections tt { st with transposition := st.transposition - n } chords text rest
        | none => .error "unwrap failed: parse i32"
      | none => .error "unwrap failed: capture group 2"
    else if name = "c".toList then
      match arg with
      | some a => processSections tt st chords (text ++ [⟨a, .comment⟩]) rest
      | none => .error "unwrap failed: capture group 2"
    else if name = "soc".toList ∨ name = "start_of_chorus".toList then
      .ok ({ st with chorus := true }, none)
    else if name = "eoc".toList ∨ name = "end_of_chorus".toList then
      processSections tt { st with chorus := false } chords text rest
    else if name = "soh".toList then
      processSections tt { st with comment := true } chords text rest
    else if name = "eoh".toList then
      processSections tt { st with comment := false } chords text rest
    else if name = "tag".toList ∨ name = "tag:".toList then
      .ok (st, none)
    else
      processSections tt st chords text rest

/-- The chorus marker span inserted in front of both runs of a line
inside a chorus block (parser.rs lines 235-248). -/
def pipeSpan : Span := ⟨['|', ' '], .comment⟩

/-- Process one physical line of the source (the body of the labelled
lines loop of Song::new, parser.rs lines 172-256): run the section
loop, then, unless the line was consumed by a directive, prepend the
chorus markers and push the finished SongLine. -/
def processLine (tt : Option PitchClass) (st : BuildSt) (line : List Char) :
    Except String BuildSt :=
  match processSections tt st [] [] (tagTokenize line) with
  | .error e => .error e
  | .ok (st2, none) => .ok st2
  | .ok (st2, some (chords, text)) =>
    let text2 := if st2.chorus ∧ text ≠ [] then pipeSpan :: text else text
    let chords2 := if st2.chorus ∧ chords ≠ [] then pipeSpan :: chords else chords
    let newLine := match chords2 with
      | [] => SongLine.from_text text2
      | _ => SongLine.from chords2 text2
    .ok { st2 with song.text := st2.song.text ++ [newLine] }

/-- Fold of processLine over the source lines. -/
def buildLines (tt : Option PitchClass) : BuildSt → List (List Char) → Except String BuildSt
  | st, [] => .ok st
  | st, l :: ls =>
    match processLine tt st l with
    | .ok st2 => buildLines tt st2 ls
    | .error e => .error e

/-- The initial builder state of Song::new: a default song whose
songstring is the newline-normalized source. -/
def initSt (ss : List Char) : BuildSt := ⟨⟨[], [], ss, []⟩, false, false, 0⟩

/-- Song::new (parser.rs lines 161-258): normalize newlines, walk the
lines, return the built song; a Rust panic is an error value. -/
def Song.new (songstring : List Char) (tt : Option PitchClass) : Except String Song :=
  match buildLines tt (initSt (normNl songstring)) (rustLines (normNl songstring)) with
  | .ok st => .ok st.song
  | .error e => .error e

/-- The section loop of Song::get_name (parser.rs lines 338-348): only
title and subtitle directives act, everything else is skipped; the
unwrap of a missing argument is an error value. -/
def nameSections : List Char × List Char → List TagTok → Except String (List Char × List Char)
  | ts, [] => .ok ts
  | (t, s), .lit _ :: rest => nameSections (t, s) rest
  | (t, s), .tag name arg :: rest =>
    if name = "t".toList ∨ name = "title".toList then
      match arg with
      | some a => nameSections (strTrim a, s) rest
      | none => .error "unwrap failed: capture group 2"
    else if name = "st".toList ∨ name = "subtitle".toList then
      match arg with
      | some a => nameSections (t, strTrim a) rest
      | none => .error "unwrap failed: capture group 2"
    else nameSections (t, s) rest

/-- Fold of nameSections over the source lines. -/
def nameLines : List Char × List Char → List (List Char) → Except String (List Char × List Char)
  | ts, [] => .ok ts
  | ts, l :: ls =>
    match nameSections ts (tagTokenize l) with
    | .ok ts2 => nameLines ts2 ls
    | .error e => .error e

/-- Song::get_name (parser.rs lines 332-354): scan all lines for title
and subtitle directives, starting from the default title Untitled, and
format the result; a Rust panic is an error value. -/
def Song.get_name (songstring : List Char) : Except String (List Char) :=
  match nameLines ("Untitled".toList, []) (rustLines (normNl songstring)) with
  | .ok (t, s) =>
    match s with
    | [] => .ok t
    | _ => .ok (t ++ " - ".toList ++ s)
  | .error e => .error e

/-- The slice text[a..b] of the source's byte ranges; on the character
lists modelled here, take then drop. -/
def sliceStr (text : List Char) (a b : Nat) : List Char := (text.take b).drop a

/-- Song::regex_split_keep (parser.rs lines 316-330) with the external
regex engine abstracted: ms is the list of (start, length) matches
that match_indices yields, leftmost first and non-overlapping, and
last is the cursor behind the previous match.  A gap is pushed only
when non-empty, each match is pushed, and the trailing gap is pushed
only when non-empty. -/
def regex_split_keep (text : List Char) : List (Nat × Nat) → Nat → List (List Char)
  | [], last => if last < text.length then [text.drop last] else []
  | (i, len) :: ms, last =>
    (if last = i then [] else [sliceStr text last i]) ++
      (sliceStr text i (i + len) :: regex_split_keep text ms (i + len))

/-- Well-formedness of an abstract match list against a text of length
n starting at cursor position last: matches are in order, non-empty
(every RE_TAGS or RE_CHORDS match spans at least two characters) and
in bounds. -/
def validMatches (n : Nat) : Nat → List (Nat × Nat) → Bool
  | last, [] => decide (last ≤ n)
  | last, (i, len) :: ms =>
    decide (last ≤ i) && decide (0 < len) && decide (i + len ≤ n) && validMatches n (i + len) ms

/-- Modelled from the spec: SongLine::split_spans (parser.rs lines
93-132) is an unfinished draft in the source, with a stray incomplete
loop and no returned value; this follows its complete accumulation
loop (lines 106-131) and section 4.5 of the spec, returning the left
and right halves with a straddling span divided into two spans of the
same style. -/
def splitSpansGo (index : Nat) : List Span → Nat → List Span → List Span → List Span × List Span
  | [], _, left, right => (left, right)
  | sp :: rest, acc, left, right =>
    if acc + sp.width > index ∧ acc < index then
      let spLeft : Span := ⟨sp.content.take (index - acc), sp.style⟩
      let spRight : Span := ⟨sp.content.drop (index - acc), sp.style⟩
      splitSpansGo index rest (acc + sp.width) (left ++ [spLeft]) (right ++ [spRight])
    else if acc < index then
      splitSpansGo index rest (acc + sp.width) (left ++ [sp]) right
    else
      splitSpansGo index rest acc left (right ++ [sp])

/-- SongLine::split_spans: the whole run when the index is not inside
it, otherwise the two halves. -/
def split_spans (spans : List Span) (index : Nat) : List (List Span) :=
  if index ≥ spansWidth spans then [spans]
  else
    match splitSpansGo index spans 0 [] [] with
    | (left, right) => [left, right]

/-- SongLine::split_at (parser.rs lines 62-91): reject an index at or
beyond the width, split both runs at the same index, and rebuild the
pieces; the text-only branch of the source wraps the text pieces with
Self::from_chords (line 87). -/
def SongLine.split_at (l : SongLine) (index : Nat) : Except String (List SongLine) :=
  if index ≥ l.width then .error "Split index larger than width"
  else
    match l.chords, l.text with
    | some c, some t =>
      .ok ((split_spans c index).zip (split_spans t index) |>.map
        (fun p => SongLine.from p.1 p.2))
    | some c, none => .ok ((split_spans c index).map SongLine.from_chords)
    | none, some t => .ok ((split_spans t index).map SongLine.from_chords)
    | none, none => .error "No content to split on"

/-- Total height of a column: the sum of its line heights. -/
def sumHeights (c : List SongLine) : Nat := (c.map SongLine.height).sum

/-- Modelled from the spec: the greedy column packer of section 4.5.
The source's wrap_lines (ui.rs lines 171-209) is an unfinished draft
that does not compile (it pushes a variable that is out of scope,
calls a nonexistent SongLine::len, and never advances its cursor), so
the intended contract is modelled: walk the lines accumulating
height(); when adding the next line would exceed the budget, close the
current column and start a new one with that line. -/
def packGreedy (budget : Nat) : List SongLine → List SongLine → Nat → List (List SongLine)
  | [], cur, _ => [cur.reverse]
  | l :: rest, cur, h =>
    if budget < h + l.height then cur.reverse :: packGreedy budget rest [l] l.height
    else packGreedy budget rest (l :: cur) (h + l.height)

/-- Modelled from the spec: wrap_lines of ui.rs with the intended
greedy packing; the viewport height loses the 2-cell border margin. -/
def wrap_lines (lines : List SongLine) (viewportHeight : Nat) : List (List SongLine) :=
  match lines with
  | [] => []
  | _ => packGreedy (viewportHeight - 2) lines [] 0

/-- Does this directive name trigger the title or subtitle branch (the
four names whose argument both Song::new and Song::get_name unwrap)? -/
def isTsName (n : List Char) : Bool :=
  decide (n = "t".toList ∨ n = "title".toList ∨ n = "st".toList ∨ n = "subtitle".toList)

/-- Is this token a title or subtitle directive? -/
def tagTokIsTs : TagTok → Bool
  | .tag n _ => isTsName n
  | .lit _ => false

/-- Does this token avoid the unwrap panic of the title and subtitle
branches, i.e. is it anything but an argument-less title or subtitle
directive? -/
def tagArgsOkTok : TagTok → Bool
  | .tag n none => !isTsName n
  | _ => true

/-- All tokens of a line avoid the title/subtitle unwrap panic. -/
def lineArgsOk (l : List Char) : Bool := (tagTokenize l).all tagArgsOkTok

/-- All lines of a source text avoid the title/subtitle unwrap panic. -/
def tagArgsOk (ss : List Char) : Bool := (rustLines (normNl ss)).all lineArgsOk

/-- Is this line exactly one title directive with an argument? -/
def isTitleTagLine (l : List Char) : Bool :=
  match tagTokenize l with
  | [.tag n (some _)] => decide (n = "t".toList ∨ n = "title".toList)
  | _ => false

/-- Is this line exactly one subtitle directive with an argument? -/
def isSubTagLine (l : List Char) : Bool :=
  match tagTokenize l with
  | [.tag n (some _)] => decide (n = "st".toList ∨ n = "subtitle".toList)
  | _ => false

/-- A line on which Song::new and Song::get_name extract titles in
step: either it carries no title or subtitle directive at all, or it
is exactly one such directive with an argument. -/
def goodLine (l : List Char) : Bool :=
  (tagTokenize l).all (fun tok => !tagTokIsTs tok) || isTitleTagLine l || isSubTagLine l

/-- Some line of the list is a whole-line title directive. -/
def hasTitleLine (ls : List (List Char)) : Bool := ls.any isTitleTagLine

/-- The pitch class D, the target key of the claimed scenario. -/
def pcD : PitchClass := ⟨2, by decide⟩

/-- The source text of the claimed title/key/chord-line scenario. -/
def in7 : List Char := "\x7btitle: Amazing\x7d\n\x7bkey: C\x7d\n[C]Hello [G]world".toList

/-- Bind on Except applied to a success value. -/
lemma exceptBindOk {ε α β : Type} (x : α) (f : α → Except ε β) :
    (Except.ok x : Except ε α).bind f = f x := rfl

/-- The source's transposition normalization (t + 12) tmod 12 agrees
with the mathematical residue of t modulo 12, and so lands in [0, 12),
exactly when t is at least -12 or a multiple of 12. -/
lemma tmodNorm (t : Int) (h : -12 ≤ t ∨ (12:Int) ∣ t) :
    (t + 12).tmod 12 = t % 12 ∧ 0 ≤ t % 12 ∧ t % 12 < 12 := by
  refine ⟨?_, Int.emod_nonneg t (by decide), Int.emod_lt_of_pos t (by decide)⟩
  rcases h with h | h
  · rw [Int.tmod_eq_emod (by omega) (by omega)]
    have h3 : (t + 12) % 12 = t % 12 := by
      have h4 := Int.add_mul_emod_self_left t 12 1
      have h5 : t + 12 * 1 = t + 12 := by ring
      rw [h5] at h4
      exact h4
    exact h3
  · obtain ⟨k, rfl⟩ := h
    have h2 : (12 * k + 12) = 12 * (k + 1) := by ring
    rw [h2, Int.mul_tmod_right]
    exact (Int.mul_emod_right 12 k).symm

/-- On offsets satisfying the normalization condition, transpose
succeeds and moves the pitch class by the residue of the offset. -/
lemma transpose_ok (p : PitchClass) (t : Int) (h : -12 ≤ t ∨ (12:Int) ∣ t) :
    transpose p t = .ok ⟨(p.val + (t % 12).toNat) % 12, Nat.mod_lt _ (by decide)⟩ := by
  obtain ⟨h1, h2, h3⟩ := tmodNorm t h
  unfold transpose i32AsU8 intervalFromSemitone
  rw [h1]
  have h4 : (t % 12) % 256 = t % 12 := Int.emod_eq_of_lt h2 (by omega)
  rw [h4]
  have h5 : (t % 12).toNat ≤ 12 := by omega
  simp [h5, PitchClass.from_interval]

/-- Claim C1 (amended): transposition is a group action and the offset
is normalized into [0, 12) before the interval lookup, provided every
offset involved is at least -12 or a multiple of 12; outside that
range the source's (t + 12) % 12 normalization is negative, the u8
cast wraps, and the interval unwrap panics (see the counterexample). -/
theorem C1_transpose_group_action (p : PitchClass) (a b : Int)
    (ha : -12 ≤ a ∨ (12:Int) ∣ a) (hb : -12 ≤ b ∨ (12:Int) ∣ b)
    (hab : -12 ≤ a + b ∨ (12:Int) ∣ (a + b)) :
    transpose p 0 = .ok p ∧
    (0 ≤ (a + 12).tmod 12 ∧ (a + 12).tmod 12 < 12) ∧
    (transpose p a).bind (fun q => transpose q b) = transpose p (a + b) := by
  obtain ⟨h1, h2, h3⟩ := tmodNorm a ha
  refine ⟨?_, ⟨by omega, by omega⟩, ?_⟩
  · rw [transpose_ok p 0 (Or.inl (by decide))]
    simp only [Except.ok.injEq]
    apply Fin.ext
    show (p.val + ((0:Int) % 12).toNat) % 12 = p.val
    have h0 : ((0:Int) % 12).toNat = 0 := rfl
    rw [h0]
    have hp := p.isLt
    omega
  · rw [transpose_ok p a ha, exceptBindOk, transpose_ok _ b hb, transpose_ok p (a + b) hab]
    simp only [Except.ok.injEq]
    apply Fin.ext
    show ((p.val + (a % 12).toNat) % 12 + (b % 12).toNat) % 12
        = (p.val + ((a + b) % 12).toNat) % 12
    have hadd : (a + b) % 12 = (a % 12 + b % 12) % 12 := Int.add_emod a b 12
    obtain ⟨_, g2, g3⟩ := tmodNorm b hb
    rcases lt_or_le (a % 12 + b % 12) 12 with h | h
    · rw [Int.emod_eq_of_lt (by omega) h] at hadd
      omega
    · have h3b := Int.add_mul_emod_self_left (a % 12 + b % 12 - 12) 12 1
      have h4 : a % 12 + b % 12 - 12 + 12 * 1 = a % 12 + b % 12 := by ring
      rw [h4] at h3b
      have hlt : (a % 12 + b % 12 - 12) % 12 = a % 12 + b % 12 - 12 :=
        Int.emod_eq_of_lt (by omega) (by omega)
      rw [h3b, hlt] at hadd
      omega

/-- Claim C1, counterexample: at offset -13 the normalized value is
the Rust remainder -1, whose u8 cast is 255, so the interval lookup
unwrap panics instead of transposing; consequently the composition law
fails at a = -1, b = -12, where the left side succeeds and the right
side panics. -/
theorem C1_counterexample :
    transpose ⟨0, by decide⟩ (-13) = .error "unwrap failed: Interval::from_semitone" ∧
    (transpose ⟨0, by decide⟩ (-1)).bind (fun q => transpose q (-12)) = .ok ⟨11, by decide⟩ ∧
    transpose ⟨0, by decide⟩ ((-1) + (-12)) = .error "unwrap failed: Interval::from_semitone" :=
  ⟨rfl, rfl, rfl⟩

/-- Witness for C1 at p = F, a = 14, b = -3. -/
theorem C1_transpose_group_action_witness :
    ((-12:Int) ≤ 14 ∨ (12:Int) ∣ 14) ∧
    (transpose ⟨5, by decide⟩ 0 = .ok ⟨5, by decide⟩ ∧
      (0 ≤ ((14:Int) + 12).tmod 12 ∧ ((14:Int) + 12).tmod 12 < 12) ∧
      (transpose ⟨5, by decide⟩ 14).bind (fun q => transpose q (-3)) =
        transpose ⟨5, by decide⟩ (14 + -3)) :=
  ⟨Or.inl (by decide),
    C1_transpose_group_action ⟨5, by decide⟩ 14 (-3) (Or.inl (by decide)) (Or.inl (by decide))
      (Or.inl (by decide))⟩

/-- Claim C3: a capo directive whose argument fails to parse as an
integer panics in Song::new through parse::<i32>().unwrap() instead of
being skipped, while a key directive with an unparseable key really is
recovered locally: the transposition is left unchanged and parsing
continues (the following chord line still comes out untransposed). -/
theorem C3_capo_panic :
    Song.new "\x7bCapo-Bass_Guitar: abc\x7d".toList none = .error "unwrap failed: parse i32" ∧
    Song.new "\x7bkey: H\x7d\n[C]x".toList (some pcD) =
      .ok ⟨[], [], "\x7bkey: H\x7d\n[C]x".toList,
        [⟨some [⟨"C ".toList, .chord⟩], some [⟨"x".toList, .plain⟩]⟩]⟩ :=
  ⟨rfl, rfl⟩

/-- Claim C5: split_at rejects an index at or beyond the width, but on
a text-only line the source's (None, Some(t)) branch rebuilds the
pieces with Self::from_chords, so the halves of a text-only line come
back as chord-only lines rather than text-only ones. -/
theorem C5_split_at_behaviour :
    SongLine.split_at ⟨none, some [⟨"Hello".toList, .plain⟩]⟩ 2 =
      .ok [⟨some [⟨"He".toList, .plain⟩], none⟩, ⟨some [⟨"llo".toList, .plain⟩], none⟩] ∧
    SongLine.split_at ⟨none, some [⟨"Hello".toList, .plain⟩]⟩ 5 =
      .error "Split index larger than width" ∧
    SongLine.split_at ⟨none, none⟩ 0 = .error "Split index larger than width" :=
  ⟨rfl, rfl, rfl⟩

/-- Claim C7, counterexample: the scenario input parses to a chord run
of D, five spaces, A, space - not the claimed seven spaces before the
A - because the A is padded to column 6, the column of the w of world
in the lyric run. -/
theorem C7_counterexample :
    Song.new in7 (some pcD) =
      .ok ⟨"Amazing".toList, [], in7,
        [⟨some [⟨"D     A ".toList, .chord⟩], some [⟨"Hello world".toList, .plain⟩]⟩]⟩ ∧
    "D     A ".toList ≠ "D       A ".toList :=
  ⟨rfl, by decide⟩

/-- Claim C7 (amended): the scenario yields title Amazing, accumulated
transposition +2, and the chord run D-five-spaces-A-space over the
lyric run Hello world, with D over the H at column 0 and A over the w
at column 6. -/
theorem C7_scenario :
    Song.new in7 (some pcD) =
      .ok ⟨"Amazing".toList, [], in7,
        [⟨some [⟨"D     A ".toList, .chord⟩], some [⟨"Hello world".toList, .plain⟩]⟩]⟩ ∧
    buildLines (some pcD) (initSt (normNl in7)) (rustLines (normNl in7)) =
      .ok ⟨⟨"Amazing".toList, [], in7,
        [⟨some [⟨"D     A ".toList, .chord⟩], some [⟨"Hello world".toList, .plain⟩]⟩]⟩,
        false, false, 2⟩ :=
  ⟨rfl, rfl⟩

/-- Claim C8, counterexample: a line holding one empty chord bracket
produces a chord run consisting of one space - the unconditional
trailing space pushed after every chord - so the bracket does
contribute a character to the chord run. -/
theorem C8_counterexample :
    Song.new "[]".toList none = .ok ⟨[], [], "[]".toList, [⟨some [⟨[' '], .chord⟩], some []⟩]⟩ ∧
    ([' '] : List Char) ≠ [] :=
  ⟨rfl, by decide⟩

/-- Claim C8 (amended): an empty chord bracket is legal and contributes
the alignment padding plus the one trailing space to the chord run;
chord-over-lyric alignment of later chords is still maintained by the
difference computation, as in the second conjunct, where the C sits at
column 1 directly over the x at column 1. -/
theorem C8_empty_bracket :
    Song.new "[]".toList none = .ok ⟨[], [], "[]".toList, [⟨some [⟨[' '], .chord⟩], some []⟩]⟩ ∧
    Song.new "[][C]x".toList none =
      .ok ⟨[], [], "[][C]x".toList,
        [⟨some [⟨" C ".toList, .chord⟩], some [⟨" x".toList, .plain⟩]⟩]⟩ :=
  ⟨rfl, rfl⟩

/-- Claim C6, counterexample: a line with chords and no lyrics comes
out with a present-but-empty text run and height 2, not chord-only
with height 1, and an empty source line comes out as a text-only line
of height 1, not an all-empty spacer of height 0. -/
theorem C6_counterexample :
    Song.new "[C]".toList none =
      .ok ⟨[], [], "[C]".toList, [⟨some [⟨"C ".toList, .chord⟩], some []⟩]⟩ ∧
    SongLine.height ⟨some [⟨"C ".toList, .chord⟩], some []⟩ = 2 ∧
    Song.new "\n".toList none = .ok ⟨[], [], "\n".toList, [⟨none, some []⟩]⟩ ∧
    SongLine.height ⟨none, some []⟩ = 1 :=
  ⟨rfl, rfl, rfl, rfl⟩

/-- Claim C10, counterexample: with two title directives on one line
the builder keeps the first (the title branch discards the rest of the
line) while get_name keeps the last, so the two disagree. -/
theorem C10_counterexample :
    Song.new "\x7bt:A\x7d\x7bt:B\x7d".toList none =
      .ok ⟨['A'], [], "\x7bt:A\x7d\x7bt:B\x7d".toList, []⟩ ∧
    Song.get_name "\x7bt:A\x7d\x7bt:B\x7d".toList = .ok ['B'] ∧
    (['A'] : List Char) ≠ ['B'] :=
  ⟨rfl, rfl, by decide⟩

/-- Claim C9, counterexample: get_name is not total on arbitrary
source text: a title directive with no argument panics through the
capture-group unwrap. -/
theorem C9_counterexample :
    Song.get_name "\x7bt\x7d".toList = .error "unwrap failed: capture group 2" :=
  rfl

/-- Column heights add over concatenation. -/
lemma sumHeights_append (a b : List SongLine) :
    sumHeights (a ++ b) = sumHeights a + sumHeights b := by
  simp [sumHeights]

/-- Correctness of the greedy packer: given that every line fits the
budget on its own, the columns flatten back to the input in order and
each column's total height stays within the budget. -/
lemma packGreedy_spec (b : Nat) :
    ∀ (rest cur : List SongLine) (h : Nat),
      h = sumHeights cur.reverse → h ≤ b → (∀ l ∈ rest, SongLine.height l ≤ b) →
      (packGreedy b rest cur h).flatten = cur.reverse ++ rest ∧
      ∀ c ∈ packGreedy b rest cur h, sumHeights c ≤ b := by
  intro rest
  induction rest with
  | nil =>
    intro cur h hcur hle _
    refine ⟨by simp [packGreedy], ?_⟩
    intro c hc
    simp [packGreedy] at hc
    subst hc
    omega
  | cons l ls ih =>
    intro cur h hcur hle hall
    have hl : SongLine.height l ≤ b := hall l (by simp)
    have hall2 : ∀ x ∈ ls, SongLine.height x ≤ b := fun x hx => hall x (by simp [hx])
    by_cases hov : b < h + l.height
    · have := ih [l] l.height (by simp [sumHeights]) hl hall2
      rw [packGreedy]
      simp only [if_pos hov]
      refine ⟨?_, ?_⟩
      · rw [List.flatten_cons, this.1]
        simp
      · intro c hc
        rcases List.mem_cons.mp hc with hc | hc
        · subst hc; omega
        · exact this.2 c hc
    · have harg : h + l.height = sumHeights (l :: cur).reverse := by
        rw [List.reverse_cons, sumHeights_append, ← hcur]
        simp [sumHeights]
      have := ih (l :: cur) (h + l.height) harg (by omega) hall2
      rw [packGreedy]
      simp only [if_neg hov]
      refine ⟨?_, this.2⟩
      rw [this.1, List.reverse_cons]
      simp

/-- Claim C2: the intended greedy column wrapper (modelled from the
spec, the source's wrap_lines being a non-compiling draft) packs every
original line into exactly one column in order, keeps every column's
total height within the viewport budget (height minus the 2-cell
margin) whenever each line alone fits it, and wrapping 30 lines of
height 1 into a viewport of height 10 yields columns of heights
8, 8, 8, 6. -/
theorem C2_wrap_greedy (lines : List SongLine) (viewportHeight : Nat)
    (h : ∀ l ∈ lines, SongLine.height l ≤ viewportHeight - 2) :
    ((wrap_lines lines viewportHeight).flatten = lines ∧
      ∀ c ∈ wrap_lines lines viewportHeight, sumHeights c ≤ viewportHeight - 2) ∧
    (wrap_lines (List.replicate 30 ⟨none, some []⟩) 10).map sumHeights = [8, 8, 8, 6] := by
  refine ⟨?_, by decide⟩
  cases lines with
  | nil => simp [wrap_lines]
  | cons a as =>
    have := packGreedy_spec (viewportHeight - 2) (a :: as) [] 0 (by simp [sumHeights])
      (by omega) h
    have heq : wrap_lines (a :: as) viewportHeight =
        packGreedy (viewportHeight - 2) (a :: as) [] 0 := rfl
    rw [heq]
    exact ⟨by rw [this.1]; simp, this.2⟩

/-- Witness for C2 at the 30-line scenario. -/
theorem C2_wrap_greedy_witness :
    (∀ l ∈ List.replicate 30 (SongLine.mk none (some [])), SongLine.height l ≤ 10 - 2) ∧
    (((wrap_lines (List.replicate 30 ⟨none, some []⟩) 10).flatten =
        List.replicate 30 (SongLine.mk none (some [])) ∧
      ∀ c ∈ wrap_lines (List.replicate 30 ⟨none, some []⟩) 10, sumHeights c ≤ 10 - 2) ∧
    (wrap_lines (List.replicate 30 ⟨none, some []⟩) 10).map sumHeights = [8, 8, 8, 6]) :=
  ⟨by decide, C2_wrap_greedy (List.replicate 30 ⟨none, some []⟩) 10 (by decide)⟩

/-- Dropping to a cut point a is the slice up to a later cut point b
followed by the drop at b. -/
lemma drop_eq_slice_append (text : List Char) (a b : Nat) (hab : a ≤ b) (hb : b ≤ text.length) :
    text.drop a = sliceStr text a b ++ text.drop b := by
  unfold sliceStr
  conv_lhs => rw [← List.take_append_drop b text]
  rw [List.drop_append_of_le_length (by simp [List.length_take]; omega)]

/-- Length of an in-bounds slice. -/
lemma length_slice (text : List Char) (a b : Nat) (hb : b ≤ text.length) :
    (sliceStr text a b).length = b - a := by
  simp [sliceStr, List.length_drop, List.length_take]
  omega

/-- regex_split_keep from an arbitrary cursor: the segments flatten to
the text behind the cursor, and every segment is non-empty. -/
lemma rsk_spec (text : List Char) :
    ∀ (ms : List (Nat × Nat)) (last : Nat),
      validMatches text.length last ms = true →
      (regex_split_keep text ms last).flatten = text.drop last ∧
      ∀ s ∈ regex_split_keep text ms last, s ≠ [] := by
  intro ms
  induction ms with
  | nil =>
    intro last hv
    rw [validMatches] at hv
    have hle : last ≤ text.length := of_decide_eq_true hv
    rw [regex_split_keep]
    by_cases h : last < text.length
    · simp only [if_pos h]
      refine ⟨by simp, ?_⟩
      intro s hs
      simp at hs
      subst hs
      apply List.ne_nil_of_length_pos
      rw [List.length_drop]
      omega
    · simp only [if_neg h]
      have : text.drop last = [] := List.drop_eq_nil_of_le (by omega)
      simp [this]
  | cons m ms ih =>
    intro last hv
    obtain ⟨i, len⟩ := m
    rw [validMatches] at hv
    simp only [Bool.and_eq_true, decide_eq_true_eq] at hv
    obtain ⟨⟨⟨h1, h2⟩, h3⟩, h4⟩ := hv
    obtain ⟨ihf, ihn⟩ := ih (i + len) h4
    rw [regex_split_keep]
    constructor
    · rw [List.flatten_append, List.flatten_cons, ihf]
      rw [← drop_eq_slice_append text i (i + len) (by omega) h3]
      by_cases hgap : last = i
      · subst hgap
        simp
      · simp only [if_neg hgap]
        rw [List.flatten_cons]
        simp only [List.flatten_nil, List.append_nil]
        exact (drop_eq_slice_append text last i (by omega) (by omega)).symm
    · intro s hs
      rw [List.mem_append] at hs
      rcases hs with hs | hs
      · by_cases hgap : last = i
        · subst hgap; simp at hs
        · simp only [if_neg hgap, List.mem_singleton] at hs
          subst hs
          apply List.ne_nil_of_length_pos
          rw [length_slice text last i (by omega)]
          omega
      · rcases List.mem_cons.mp hs with hs | hs
        · subst hs
          apply List.ne_nil_of_length_pos
          rw [length_slice text i (i + len) h3]
          omega
        · exact ihn s hs

/-- Claim C4: for every input line and any well-formed leftmost,
non-overlapping match list of a markup pattern (the matches of the
directive-tag and chord-bracket patterns are such lists, and both
patterns only produce non-empty matches), splitting the line into
alternating unmatched-literal and matched segments and concatenating
all segments in order reproduces the line exactly, and no segment -
in particular no zero-length gap after a markup token - is emitted as
an empty string. -/
theorem C4_split_keep_roundtrip (text : List Char) (ms : List (Nat × Nat))
    (h : validMatches text.length 0 ms = true) :
    (regex_split_keep text ms 0).flatten = text ∧
    ∀ s ∈ regex_split_keep text ms 0, s ≠ [] := by
  obtain ⟨h1, h2⟩ := rsk_spec text ms 0 h
  exact ⟨by simpa using h1, h2⟩

/-- Witness for C4 on the line a[b]c with its single bracket match. -/
theorem C4_split_keep_roundtrip_witness :
    validMatches "a[b]c".toList.length 0 [(1, 3)] = true ∧
    ((regex_split_keep "a[b]c".toList [(1, 3)] 0).flatten = "a[b]c".toList ∧
      ∀ s ∈ regex_split_keep "a[b]c".toList [(1, 3)] 0, s ≠ []) :=
  ⟨by decide, C4_split_keep_roundtrip "a[b]c".toList [(1, 3)] (by decide)⟩

set_option maxHeartbeats 1000000 in
/-- Every line the section loop pushes (the subtitle push) keeps the
emitted-line shape: text run present, chord run only present when
non-empty. -/
lemma processSections_push_inv (tt : Option PitchClass) :
    ∀ (ts : List TagTok) (st : BuildSt) (chords text : List Span) (st2 : BuildSt)
      (out : Option (List Span × List Span)),
      processSections tt st chords text ts = .ok (st2, out) →
      (∀ l ∈ st.song.text, l.text.isSome = true ∧ ∀ c, l.chords = some c → c ≠ []) →
      ∀ l ∈ st2.song.text, l.text.isSome = true ∧ ∀ c, l.chords = some c → c ≠ [] := by
  intro ts
  induction ts with
  | nil =>
    intro st chords text st2 out h hP
    rw [processSections] at h
    simp only [Except.ok.injEq, Prod.mk.injEq] at h
    obtain ⟨rfl, -⟩ := h
    exact hP
  | cons tok ts ih =>
    intro st chords text st2 out h hP
    cases tok with
    | lit s =>
      simp only [processSections] at h
      repeat' split at h
      all_goals first
        | exact Except.noConfusion h
        | exact ih _ _ _ _ _ h hP
    | tag name arg =>
      simp only [processSections] at h
      repeat' split at h
      all_goals first
        | exact Except.noConfusion h
        | exact ih _ _ _ _ _ h hP
        | (simp only [Except.ok.injEq, Prod.mk.injEq] at h
           obtain ⟨rfl, -⟩ := h
           first
            | exact hP
            | (intro l hl
               rcases List.mem_append.mp hl with h1 | h1
               · exact hP l h1
               · simp only [List.mem_singleton] at h1
                 subst h1
                 exact ⟨rfl, by intro c hc; simp [SongLine.from_text] at hc⟩))

/-- The per-line push of Song::new keeps the emitted-line shape. -/
lemma processLine_inv (tt : Option PitchClass) (st : BuildSt) (line : List Char) (st2 : BuildSt)
    (h : processLine tt st line = .ok st2)
    (hP : ∀ l ∈ st.song.text, l.text.isSome = true ∧ ∀ c, l.chords = some c → c ≠ []) :
    ∀ l ∈ st2.song.text, l.text.isSome = true ∧ ∀ c, l.chords = some c → c ≠ [] := by
  unfold processLine at h
  split at h
  · exact Except.noConfusion h
  · rename_i st1 heq
    simp only [Except.ok.injEq] at h
    subst h
    exact processSections_push_inv tt (tagTokenize line) st [] [] st1 none heq hP
  · rename_i st1 chords text heq
    simp only [Except.ok.injEq] at h
    subst h
    intro l hl
    have hmid := processSections_push_inv tt (tagTokenize line) st [] [] st1
      (some (chords, text)) heq hP
    rcases List.mem_append.mp hl with h1 | h1
    · exact hmid l h1
    · simp only [List.mem_singleton] at h1
      subst h1
      cases hch : (if st1.chorus ∧ chords ≠ [] then pipeSpan :: chords else chords) with
      | nil =>
        exact ⟨rfl, by intro c hc; simp [SongLine.from_text] at hc⟩
      | cons a as =>
        refine ⟨rfl, ?_⟩
        intro c hc
        simp only [SongLine.from, Option.some.injEq] at hc
        subst hc
        simp

/-- The line fold keeps the emitted-line shape. -/
lemma buildLines_inv (tt : Option PitchClass) :
    ∀ (ls : List (List Char)) (st : BuildSt) (st2 : BuildSt),
      buildLines tt st ls = .ok st2 →
      (∀ l ∈ st.song.text, l.text.isSome = true ∧ ∀ c, l.chords = some c → c ≠ []) →
      ∀ l ∈ st2.song.text, l.text.isSome = true ∧ ∀ c, l.chords = some c → c ≠ [] := by
  intro ls
  induction ls with
  | nil =>
    intro st st2 h hP
    rw [buildLines] at h
    simp only [Except.ok.injEq] at h
    subst h
    exact hP
  | cons line rest ih =>
    intro st st2 h hP
    rw [buildLines] at h
    split at h
    · rename_i st1 heq
      exact ih st1 st2 h (processLine_inv tt st line st1 heq hP)
    · exact Except.noConfusion h

/-- Claim C6 (amended): every SongLine the builder emits has its text
run present (possibly as an empty run) and has its chord run present
only when the finished chord run is non-empty; together with the
counterexample's height computations this replaces the claimed
chords-only (height 1) and all-empty (height 0) lines. -/
theorem C6_emitted_line_invariant (ss : List Char) (tt : Option PitchClass) (s : Song)
    (h : Song.new ss tt = .ok s) :
    ∀ l ∈ s.text, l.text.isSome = true ∧ ∀ c, l.chords = some c → c ≠ [] := by
  unfold Song.new at h
  split at h
  · rename_i st heq
    simp only [Except.ok.injEq] at h
    subst h
    exact buildLines_inv tt (rustLines (normNl ss)) (initSt (normNl ss)) st heq
      (by intro l hl; simp [initSt] at hl)
  · exact Except.noConfusion h

/-- Witness for C6 on the chord-only line input. -/
theorem C6_emitted_line_invariant_witness :
    Song.new "[C]".toList none =
      .ok ⟨[], [], "[C]".toList, [⟨some [⟨"C ".toList, .chord⟩], some []⟩]⟩ ∧
    ∀ l ∈ (Song.mk [] [] "[C]".toList [⟨some [⟨"C ".toList, .chord⟩], some []⟩]).text,
      l.text.isSome = true ∧ ∀ c, l.chords = some c → c ≠ [] :=
  ⟨rfl, C6_emitted_line_invariant "[C]".toList none
    (Song.mk [] [] "[C]".toList [⟨some [⟨"C ".toList, .chord⟩], some []⟩]) rfl⟩

/-- The get_name section loop succeeds on any token list whose title
and subtitle directives carry arguments. -/
lemma nameSections_ok :
    ∀ (ts : List TagTok) (st : List Char × List Char),
      ts.all tagArgsOkTok = true → ∃ st2, nameSections st ts = .ok st2 := by
  intro ts
  induction ts with
  | nil =>
    intro st _
    exact ⟨st, rfl⟩
  | cons tok ts ih =>
    intro st hall
    obtain ⟨t, s⟩ := st
    rw [List.all_cons, Bool.and_eq_true] at hall
    obtain ⟨h1, h2⟩ := hall
    cases tok with
    | lit l =>
      simp only [nameSections]
      exact ih _ h2
    | tag name arg =>
      simp only [nameSections]
      split
      · rename_i hc
        cases arg with
        | some a => exact ih _ h2
        | none =>
          exfalso
          rcases hc with rfl | rfl <;> simp [tagArgsOkTok, isTsName] at h1
      · split
        · rename_i hc
          cases arg with
          | some a => exact ih _ h2
          | none =>
            exfalso
            rcases hc with rfl | rfl <;> simp [tagArgsOkTok, isTsName] at h1
        · exact ih _ h2

/-- The get_name line fold succeeds when every line avoids the
title/subtitle unwrap. -/
lemma nameLines_ok :
    ∀ (ls : List (List Char)) (st : List Char × List Char),
      ls.all lineArgsOk = true → ∃ st2, nameLines st ls = .ok st2 := by
  intro ls
  induction ls with
  | nil =>
    intro st _
    exact ⟨st, rfl⟩
  | cons l rest ih =>
    intro st hall
    rw [List.all_cons, Bool.and_eq_true] at hall
    obtain ⟨h1, h2⟩ := hall
    obtain ⟨st1, heq⟩ := nameSections_ok (tagTokenize l) st h1
    rw [nameLines, heq]
    exact ih st1 h2

/-- Claim C9 (amended): on every source text whose t/title/st/subtitle
directives all carry an argument, get_name succeeds, and the two
claimed scenario instances hold: Foo - Bar for a title plus subtitle,
Untitled for empty input.  On other texts get_name panics, as the
counterexample shows. -/
theorem C9_get_name (ss : List Char) (h : tagArgsOk ss = true) :
    (Song.get_name ss).isOk = true ∧
    Song.get_name "\x7bt:Foo\x7d\n\x7bst:Bar\x7d".toList = .ok "Foo - Bar".toList ∧
    Song.get_name [] = .ok "Untitled".toList := by
  refine ⟨?_, rfl, rfl⟩
  obtain ⟨⟨t, s⟩, heq⟩ := nameLines_ok (rustLines (normNl ss)) ("Untitled".toList, []) h
  rw [Song.get_name, heq]
  cases s <;> rfl

/-- Witness for C9 at the title-plus-subtitle scenario input. -/
theorem C9_get_name_witness :
    tagArgsOk "\x7bt:Foo\x7d\n\x7bst:Bar\x7d".toList = true ∧
    ((Song.get_name "\x7bt:Foo\x7d\n\x7bst:Bar\x7d".toList).isOk = true ∧
      Song.get_name "\x7bt:Foo\x7d\n\x7bst:Bar\x7d".toList = .ok "Foo - Bar".toList ∧
      Song.get_name [] = .ok "Untitled".toList) :=
  ⟨rfl, C9_get_name "\x7bt:Foo\x7d\n\x7bst:Bar\x7d".toList rfl⟩

/-- The get_name section loop ignores a token list without title or
subtitle directives. -/
lemma nameSections_noTs :
    ∀ (ts : List TagTok) (t s : List Char),
      ts.all (fun tok => !tagTokIsTs tok) = true → nameSections (t, s) ts = .ok (t, s) := by
  intro ts
  induction ts with
  | nil => intro t s _; rfl
  | cons tok ts ih =>
    intro t s hall
    rw [List.all_cons, Bool.and_eq_true] at hall
    obtain ⟨h1, h2⟩ := hall
    cases tok with
    | lit l =>
      simp only [nameSections]
      exact ih _ _ h2
    | tag name arg =>
      simp only [tagTokIsTs, Bool.not_eq_true'] at h1
      simp only [nameSections]
      rw [if_neg, if_neg]
      · exact ih _ _ h2
      · intro hc
        rcases hc with rfl | rfl <;> simp [isTsName] at h1
      · intro hc
        rcases hc with rfl | rfl <;> simp [isTsName] at h1

set_option maxHeartbeats 1000000 in
/-- The builder's section loop leaves title and subtitle unchanged on
a token list without title or subtitle directives. -/
lemma processSections_noTs (tt : Option PitchClass) :
    ∀ (ts : List TagTok) (st : BuildSt) (chords text : List Span) (st2 : BuildSt)
      (out : Option (List Span × List Span)),
      ts.all (fun tok => !tagTokIsTs tok) = true →
      processSections tt st chords text ts = .ok (st2, out) →
      st2.song.title = st.song.title ∧ st2.song.subtitle = st.song.subtitle := by
  intro ts
  induction ts with
  | nil =>
    intro st chords text st2 out _ h
    rw [processSections] at h
    simp only [Except.ok.injEq, Prod.mk.injEq] at h
    obtain ⟨rfl, -⟩ := h
    exact ⟨rfl, rfl⟩
  | cons tok ts ih =>
    intro st chords text st2 out hall h
    rw [List.all_cons, Bool.and_eq_true] at hall
    obtain ⟨h1, h2⟩ := hall
    cases tok with
    | lit s =>
      simp only [processSections] at h
      repeat' split at h
      all_goals first
        | exact Except.noConfusion h
        | (have hres := ih _ _ _ _ _ h2 h
           exact ⟨hres.1, hres.2⟩)
    | tag name arg =>
      simp only [tagTokIsTs, Bool.not_eq_true'] at h1
      have hts : ¬(name = "t".toList ∨ name = "title".toList ∨ name = "st".toList ∨
          name = "subtitle".toList) := by
        intro hc
        rw [isTsName, decide_eq_false_iff_not] at h1
        exact h1 hc
      have hnt : ¬(name = "t".toList ∨ name = "title".toList) := by tauto
      have hns : ¬(name = "st".toList ∨ name = "subtitle".toList) := by tauto
      simp only [processSections, if_neg hnt, if_neg hns] at h
      repeat' split at h
      all_goals first
        | exact Except.noConfusion h
        | (have hres := ih _ _ _ _ _ h2 h
           exact ⟨hres.1, hres.2⟩)
        | (simp only [Except.ok.injEq, Prod.mk.injEq] at h
           obtain ⟨rfl, -⟩ := h
           exact ⟨rfl, rfl⟩)

/-- The section loop on a lone title directive with an argument: set
the trimmed title, consume the line. -/
lemma processSections_single_title (tt : Option PitchClass) (st : BuildSt)
    (chords text : List Span) (n a : List Char)
    (hc : n = "t".toList ∨ n = "title".toList) :
    processSections tt st chords text [.tag n (some a)] =
      .ok ({ st with song.title := strTrim a }, none) := by
  simp only [processSections]
  rw [if_pos hc]

/-- The section loop on a lone subtitle directive with an argument:
set the trimmed subtitle, push the styled subtitle line, consume the
line. -/
lemma processSections_single_sub (tt : Option PitchClass) (st : BuildSt)
    (chords text : List Span) (n a : List Char)
    (hc : n = "st".toList ∨ n = "subtitle".toList) :
    processSections tt st chords text [.tag n (some a)] =
      .ok
        ({ st with
            song :=
              { st.song with
                  subtitle := strTrim a,
                  text := st.song.text ++ [SongLine.from_text [⟨strTrim a, .title⟩]] } },
          none) := by
  have hnt : ¬(n = "t".toList ∨ n = "title".toList) := by
    rcases hc with rfl | rfl <;> decide
  simp only [processSections]
  rw [if_neg hnt, if_pos hc]

/-- A whole-line title directive only sets the builder's title. -/
lemma processLine_titleLine (tt : Option PitchClass) (st : BuildSt) (line : List Char)
    (n a : List Char) (htok : tagTokenize line = [.tag n (some a)])
    (hc : n = "t".toList ∨ n = "title".toList) :
    processLine tt st line = .ok { st with song.title := strTrim a } := by
  unfold processLine
  rw [htok, processSections_single_title tt st [] [] n a hc]

/-- A whole-line subtitle directive sets the builder's subtitle and
pushes the styled subtitle line. -/
lemma processLine_subLine (tt : Option PitchClass) (st : BuildSt) (line : List Char)
    (n a : List Char) (htok : tagTokenize line = [.tag n (some a)])
    (hc : n = "st".toList ∨ n = "subtitle".toList) :
    processLine tt st line =
      .ok
        { st with
            song :=
              { st.song with
                  subtitle := strTrim a,
                  text := st.song.text ++ [SongLine.from_text [⟨strTrim a, .title⟩]] } } := by
  unfold processLine
  rw [htok, processSections_single_sub tt st [] [] n a hc]

/-- get_name on a lone title directive keeps the trimmed argument. -/
lemma nameSections_single_title (t s n a : List Char)
    (hc : n = "t".toList ∨ n = "title".toList) :
    nameSections (t, s) [.tag n (some a)] = .ok (strTrim a, s) := by
  simp only [nameSections]
  rw [if_pos hc]

/-- get_name on a lone subtitle directive keeps the trimmed
argument. -/
lemma nameSections_single_sub (t s n a : List Char)
    (hc : n = "st".toList ∨ n = "subtitle".toList) :
    nameSections (t, s) [.tag n (some a)] = .ok (t, strTrim a) := by
  have hnt : ¬(n = "t".toList ∨ n = "title".toList) := by
    rcases hc with rfl | rfl <;> decide
  simp only [nameSections]
  rw [if_neg hnt, if_pos hc]

/-- A line without title or subtitle directives leaves the builder's
title and subtitle unchanged. -/
lemma processLine_noTs (tt : Option PitchClass) (st : BuildSt) (line : List Char) (st2 : BuildSt)
    (hall : (tagTokenize line).all (fun tok => !tagTokIsTs tok) = true)
    (h : processLine tt st line = .ok st2) :
    st2.song.title = st.song.title ∧ st2.song.subtitle = st.song.subtitle := by
  unfold processLine at h
  split at h
  · exact Except.noConfusion h
  · rename_i st1 heq
    simp only [Except.ok.injEq] at h
    subst h
    exact processSections_noTs tt (tagTokenize line) st [] [] st1 none hall heq
  · rename_i st1 chords text heq
    simp only [Except.ok.injEq] at h
    subst h
    exact processSections_noTs tt (tagTokenize line) st [] [] st1 (some (chords, text)) hall heq

/-- A line without title or subtitle tokens is not a title line. -/
lemma isTitleTagLine_false_of_noTs (l : List Char)
    (hall : (tagTokenize l).all (fun tok => !tagTokIsTs tok) = true) :
    isTitleTagLine l = false := by
  unfold isTitleTagLine
  split
  · rename_i n a htok
    rw [htok] at hall
    simp only [List.all_cons, List.all_nil, Bool.and_true, tagTokIsTs, Bool.not_eq_true'] at hall
    rw [decide_eq_false_iff_not]
    intro hc
    rcases hc with rfl | rfl <;> simp [isTsName] at hall
  · rfl

/-- A whole-line subtitle directive is not a title line. -/
lemma isTitleTagLine_false_of_sub (l : List Char) (hs : isSubTagLine l = true) :
    isTitleTagLine l = false := by
  unfold isSubTagLine at hs
  split at hs
  · rename_i n a htok
    rw [decide_eq_true_eq] at hs
    unfold isTitleTagLine
    rw [htok]
    rw [decide_eq_false_iff_not]
    intro hc
    rcases hs with rfl | rfl <;> rcases hc with hc | hc <;> exact absurd hc (by decide)
  · exact Bool.noConfusion hs

/-- The state correspondence between the builder fold and the
get_name fold: on lines whose title/subtitle directives each stand
alone with an argument, subtitles stay equal, titles stay equal once
equal, and become equal at the first title line. -/
lemma buildName_rel (tt : Option PitchClass) :
    ∀ (ls : List (List Char)) (st : BuildSt) (nt ns : List Char) (st2 : BuildSt),
      ls.all goodLine = true →
      buildLines tt st ls = .ok st2 →
      ns = st.song.subtitle →
      ∃ nt2 ns2, nameLines (nt, ns) ls = .ok (nt2, ns2) ∧
        ns2 = st2.song.subtitle ∧
        (nt = st.song.title → nt2 = st2.song.title) ∧
        (hasTitleLine ls = true → nt2 = st2.song.title) := by
  intro ls
  induction ls with
  | nil =>
    intro st nt ns st2 _ h hns
    rw [buildLines] at h
    simp only [Except.ok.injEq] at h
    subst h
    exact ⟨nt, ns, rfl, hns, fun ht => ht, by intro hh; simp [hasTitleLine] at hh⟩
  | cons line rest ih =>
    intro st nt ns st2 hall h hns
    rw [List.all_cons, Bool.and_eq_true] at hall
    obtain ⟨h1, h2⟩ := hall
    rw [buildLines] at h
    split at h
    · rename_i st1 heq
      rw [goodLine, Bool.or_eq_true, Bool.or_eq_true] at h1
      rcases h1 with (hno | htl) | hsl
      · obtain ⟨hpt, hps⟩ := processLine_noTs tt st line st1 hno heq
        have hsec := nameSections_noTs (tagTokenize line) nt ns hno
        obtain ⟨nt2, ns2, hnl, hns2, hcond, htit⟩ :=
          ih st1 nt ns st2 h2 h (by rw [hns, ← hps])
        refine ⟨nt2, ns2, ?_, hns2, ?_, ?_⟩
        · rw [nameLines, hsec]
          exact hnl
        · intro ht
          exact hcond (by rw [← hpt] at ht; exact ht)
        · intro hh
          rw [hasTitleLine, List.any_cons, Bool.or_eq_true] at hh
          rcases hh with hh | hh
          · rw [isTitleTagLine_false_of_noTs line hno] at hh
            exact Bool.noConfusion hh
          · exact htit hh
      · unfold isTitleTagLine at htl
        split at htl
        · rename_i n a htok
          rw [decide_eq_true_eq] at htl
          have hpl := processLine_titleLine tt st line n a htok htl
          rw [hpl] at heq
          have hst1 := Except.ok.inj heq
          subst hst1
          obtain ⟨nt2, ns2, hnl, hns2, hcond, -⟩ :=
            ih _ (strTrim a) ns st2 h2 h hns
          refine ⟨nt2, ns2, ?_, hns2, fun _ => hcond rfl, fun _ => hcond rfl⟩
          rw [nameLines, htok, nameSections_single_title nt ns n a htl]
          exact hnl
        · exact Bool.noConfusion htl
      · unfold isSubTagLine at hsl
        split at hsl
        · rename_i n a htok
          rw [decide_eq_true_eq] at hsl
          have hsub : isSubTagLine line = true := by
            unfold isSubTagLine
            rw [htok]
            exact decide_eq_true hsl
          have hpl := processLine_subLine tt st line n a htok hsl
          rw [hpl] at heq
          have hst1 := Except.ok.inj heq
          subst hst1
          obtain ⟨nt2, ns2, hnl, hns2, hcond, htit⟩ :=
            ih _ nt (strTrim a) st2 h2 h rfl
          refine ⟨nt2, ns2, ?_, hns2, ?_, ?_⟩
          · rw [nameLines, htok, nameSections_single_sub nt ns n a hsl]
            exact hnl
          · intro ht
            exact hcond ht
          · intro hh
            rw [hasTitleLine, List.any_cons, Bool.or_eq_true] at hh
            rcases hh with hh | hh
            · rw [isTitleTagLine_false_of_sub line hsub] at hh
              exact Bool.noConfusion hh
            · exact htit hh
        · exact Bool.noConfusion hsl
    · exact Except.noConfusion h

/-- Claim C10 (amended): when every title or subtitle directive in the
source stands alone as a whole line with an argument and at least one
title line is present, the Song builder and get_name agree: get_name
returns exactly the built song's title, or title - subtitle when the
built subtitle is non-empty, with the last directive in text order
winning in both; with several such directives on one line they
disagree, as the counterexample shows. -/
theorem C10_builder_get_name_agree (ss : List Char) (tt : Option PitchClass) (s : Song)
    (hG : (rustLines (normNl ss)).all goodLine = true)
    (hT : hasTitleLine (rustLines (normNl ss)) = true)
    (h : Song.new ss tt = .ok s) :
    Song.get_name ss =
      .ok (if s.subtitle = [] then s.title else s.title ++ " - ".toList ++ s.subtitle) := by
  unfold Song.new at h
  split at h
  · rename_i st heq
    simp only [Except.ok.injEq] at h
    subst h
    obtain ⟨nt2, ns2, hnl, hns2, -, htit⟩ :=
      buildName_rel tt (rustLines (normNl ss)) (initSt (normNl ss)) "Untitled".toList [] st
        hG heq rfl
    have ht2 := htit hT
    unfold Song.get_name
    rw [hnl]
    subst ht2
    subst hns2
    cases st.song.subtitle with
    | nil => simp
    | cons a l => simp
  · exact Except.noConfusion h

/-- Witness for C10 on a source with two whole-line title directives
followed by a lyric line. -/
theorem C10_builder_get_name_agree_witness :
    ((rustLines (normNl "\x7bt:A\x7d\n\x7bt:B\x7d\nx".toList)).all goodLine = true ∧
      hasTitleLine (rustLines (normNl "\x7bt:A\x7d\n\x7bt:B\x7d\nx".toList)) = true ∧
      Song.new "\x7bt:A\x7d\n\x7bt:B\x7d\nx".toList none =
        .ok ⟨['B'], [], "\x7bt:A\x7d\n\x7bt:B\x7d\nx".toList,
          [⟨none, some [⟨['x'], .plain⟩]⟩]⟩) ∧
    Song.get_name "\x7bt:A\x7d\n\x7bt:B\x7d\nx".toList = .ok ['B'] :=
  ⟨⟨rfl, rfl, rfl⟩,
    C10_builder_get_name_agree "\x7bt:A\x7d\n\x7bt:B\x7d\nx".toList none
      ⟨['B'], [], "\x7bt:A\x7d\n\x7bt:B\x7d\nx".toList, [⟨none, some [⟨['x'], .plain⟩]⟩]⟩
      rfl rfl rfl⟩
